import Mathlib

/-!
Verification development for the spreadsheet core of the repository:
the TTL/LRU file-handle cache (`FileCache`), the header/formula engine
(`FormulaExtractor`), and the orchestrating `Manager`.

The Go source is shallowly embedded: pure functions become Lean functions,
the lock-protected cache operations become explicit state-passing functions
on a `FileCache` record, machine integers become `Nat`/`Int`, time instants
are passed explicitly as `Nat` parameters, and `*excelize.File` handles are
modelled as `Nat` identifiers.  `file.Close()` calls are recorded in a
ghost event log (`closed`) so that handle-release behaviour can be stated.
-/

namespace MyMcp

/-- Character class trimmed by Go `strings.TrimSpace` (`unicode.IsSpace`):
ASCII whitespace plus the Unicode space separators. -/
def isGoSpace (c : Char) : Bool :=
  let n := c.toNat
  n == 9 || n == 10 || n == 11 || n == 12 || n == 13 || n == 32 ||
  n == 0x85 || n == 0xA0 || n == 0x1680 ||
  (0x2000 ≤ n && n ≤ 0x200A) || n == 0x2028 || n == 0x2029 ||
  n == 0x202F || n == 0x205F || n == 0x3000

/-- Model of Go `strings.TrimSpace`: drop leading and trailing whitespace. -/
def trimSpace (s : String) : String :=
  String.mk (((s.toList.dropWhile isGoSpace).reverse.dropWhile isGoSpace).reverse)

/-- Model of Go `strings.ToLower` restricted to ASCII letters (the strings the
code compares against, `"true"`/`"false"`, are ASCII). -/
def goToLower (s : String) : String :=
  String.mk (s.toList.map fun c =>
    if 'A' ≤ c ∧ c ≤ 'Z' then Char.ofNat (c.toNat + 32) else c)

/-- Value of a non-empty all-digit run, `none` otherwise. -/
def digitsVal? (cs : List Char) : Option Nat :=
  if cs.isEmpty then none
  else if cs.all Char.isDigit then
    some (cs.foldl (fun a c => a * 10 + (c.toNat - 48)) 0)
  else none

/-- Model of Go `strconv.ParseInt(s, 10, 64)` (also `strconv.Atoi`):
optional sign, then decimal digits, in the `int64` range. -/
def goParseInt64? (s : String) : Option Int :=
  match s.toList with
  | [] => none
  | c :: rest =>
    let neg := c = '-'
    let ds := if c = '-' ∨ c = '+' then rest else c :: rest
    match digitsVal? ds with
    | none => none
    | some n =>
      if neg then (if n ≤ 2 ^ 63 then some (-(n : Int)) else none)
      else (if n < 2 ^ 63 then some (n : Int) else none)

/-- Exponent suffix of a Go float literal: nothing, or `e`/`E`, an optional
sign and one or more digits consuming the rest of the string. -/
def goFloatExpoOk (cs : List Char) : Bool :=
  match cs with
  | [] => true
  | c :: rest =>
    (c == 'e' || c == 'E') &&
    (let ds := match rest with
               | d :: tail => if d = '+' ∨ d = '-' then tail else d :: tail
               | [] => []
     !ds.isEmpty && ds.all Char.isDigit)

/-- Decimal mantissa (digits, optional dot, at least one digit overall)
followed by an optional exponent. -/
def goFloatDecimalOk (cs : List Char) : Bool :=
  let body := match cs with
              | c :: rest => if c = '+' ∨ c = '-' then rest else c :: rest
              | [] => []
  let intPart := body.takeWhile Char.isDigit
  let rest1 := body.dropWhile Char.isDigit
  match rest1 with
  | '.' :: rest2 =>
    let frac := rest2.takeWhile Char.isDigit
    let rest3 := rest2.dropWhile Char.isDigit
    decide (intPart.length + frac.length > 0) && goFloatExpoOk rest3
  | _ => decide (intPart.length > 0) && goFloatExpoOk rest1

/-- Special Go float spellings: optionally signed `inf`/`infinity`, and
unsigned `nan`, case-insensitively. -/
def goFloatSpecialOk (cs : List Char) : Bool :=
  let low := fun (l : List Char) => (goToLower (String.mk l)).toList
  match cs with
  | [] => false
  | c :: rest =>
    if c = '+' ∨ c = '-' then
      low rest == "inf".toList || low rest == "infinity".toList
    else
      low cs == "inf".toList || low cs == "infinity".toList || low cs == "nan".toList

/-- Model of the acceptance set of Go `strconv.ParseFloat(s, 64)` (`err == nil`).
Hex floats, digit-group underscores, and range (`ErrRange`) failures on
astronomically large or small literals are not modelled; no input relevant to
the claims uses those forms. -/
def goParseFloatOk (s : String) : Bool :=
  goFloatSpecialOk s.toList || goFloatDecimalOk s.toList

/-- Embedding of `isNumeric` (formulas.go): whether `strconv.ParseFloat`
succeeds on the string. -/
def isNumeric (s : String) : Bool := goParseFloatOk s

/-- Division-by-26 loop of `excelize.ColumnNumberToName`, with fuel; the
fuel argument dominates the value argument at every call, so the `(0, _)`
base case is reached only at value `0`. -/
def columnNumberToNameAux : Nat → Nat → String
  | 0, _ => ""
  | _ + 1, 0 => ""
  | fuel + 1, n + 1 =>
    columnNumberToNameAux fuel (n / 26) ++ String.mk [Char.ofNat (65 + n % 26)]

/-- Model of `excelize.ColumnNumberToName`: 1-based column number to letters
(`0` or less gives the empty string, as the Go caller discards the error). -/
def columnNumberToName (n : Nat) : String := columnNumberToNameAux n n

/-- Model of `excelize.ColumnNameToNumber`: case-insensitive base-26 letters,
non-empty, at most 16384 (`MaxColumns`). -/
def columnNameToNumber (name : String) : Option Nat :=
  let vals := name.toList.map fun c =>
    if 'A' ≤ c ∧ c ≤ 'Z' then some (c.toNat - 64)
    else if 'a' ≤ c ∧ c ≤ 'z' then some (c.toNat - 96)
    else none
  if vals.isEmpty then none
  else if vals.all Option.isSome then
    let col := vals.foldl (fun a v => a * 26 + v.getD 0) 0
    if col > 16384 then none else some col
  else none

/-- Split a character list at every occurrence of `sep`, keeping empty
pieces — the single-separator case of Go `strings.Split`. -/
def splitOnChar (sep : Char) : List Char → List (List Char)
  | [] => [[]]
  | c :: rest =>
    let r := splitOnChar sep rest
    if c = sep then [] :: r
    else
      match r with
      | h :: t => (c :: h) :: t
      | [] => [[c]]

/-- Model of Go `strings.Split(s, sep)` for a one-character separator. -/
def goSplit (s : String) (sep : Char) : List String :=
  (splitOnChar sep s.toList).map String.mk

/-- Characters `excelize.SplitCellName` treats as column-name material. -/
def isCellAlpha (c : Char) : Bool :=
  ('A' ≤ c ∧ c ≤ 'Z') || ('a' ≤ c ∧ c ≤ 'z') || c = '$'

/-- Index of the last character satisfying `p` (Go `strings.LastIndexFunc`). -/
def lastIdxWhere (p : Char → Bool) (cs : List Char) : Option Nat :=
  ((cs.enum.filter fun q => p q.2).map Prod.fst).getLast?

/-- Model of `excelize.SplitCellName`: the cell must start with a letter or
`$`, the trailing part after the last letter/`$` must be a positive integer
row, and `$` markers are stripped from the column part. -/
def splitCellName (cell : String) : Option (String × Int) :=
  let cs := cell.toList
  match cs with
  | [] => none
  | c0 :: _ =>
    if isCellAlpha c0 then
      match lastIdxWhere isCellAlpha cs with
      | some i =>
        if i + 1 < cs.length then
          let colPart := (cs.take (i + 1)).filter fun c => c != '$'
          match goParseInt64? (String.mk (cs.drop (i + 1))) with
          | some row => if row > 0 then some (String.mk colPart, row) else none
          | none => none
        else none
      | none => none
    else none

/-- Model of `excelize.CellNameToCoordinates`: split the cell name, bound the
row by `TotalRows` (1048576), convert the column letters. -/
def cellNameToCoordinates (cell : String) : Option (Nat × Nat) :=
  match splitCellName cell with
  | none => none
  | some (colName, row) =>
    if row > 1048576 then none
    else
      match columnNameToNumber colName with
      | none => none
      | some col => some (col, row.toNat)

/-- Model of `excelize.CoordinatesToCellName`: errors when either coordinate
is below 1. -/
def coordinatesToCellName (col row : Nat) : Option String :=
  if col < 1 ∨ row < 1 then none
  else some (columnNumberToName col ++ toString row)

/-!
The `FileCache` of cache.go.  Handles (`*excelize.File`) are `Nat`
identifiers; `expireAt` instants are `Nat`; the `map[string]*CacheEntry` is an
association list with (invariantly) unique keys; `container/list` recency is a
`List String` whose head is the front (most recently used); the `listNode`
back-pointer is represented by the key itself.  `closed` is a ghost log of the
`entry.file.Close()` calls, in program order.  Each lock-protected critical
section of the Go code becomes one atomic Lean function.
-/

/-- Embedding of `CacheEntry` (cache.go): the handle and its expiry instant. -/
structure CacheEntry where
  file : Nat
  expireAt : Nat
deriving DecidableEq

/-- Embedding of `FileCache` (cache.go), plus the ghost `closed` log. -/
structure FileCache where
  cache : List (String × CacheEntry)
  lruList : List String
  maxSize : Nat
  defaultTTL : Nat
  closed : List Nat
deriving DecidableEq

/-- Association-list read, modelling `fc.cache[filePath]`. -/
def lookupEntry : List (String × CacheEntry) → String → Option CacheEntry
  | [], _ => none
  | (k, e) :: rest, key => if k = key then some e else lookupEntry rest key

/-- Embedding of `NewFileCache`. -/
def NewFileCache (maxSize defaultTTL : Nat) : FileCache :=
  { cache := [], lruList := [], maxSize := maxSize, defaultTTL := defaultTTL,
    closed := [] }

/-- Embedding of `FileCache.removeEntry`: close the handle, delete the map
entry, unlink the recency node. -/
def FileCache.removeEntry (fc : FileCache) (filePath : String)
    (entry : CacheEntry) : FileCache :=
  { fc with closed := fc.closed ++ [entry.file],
            cache := fc.cache.filter fun p => p.1 != filePath,
            lruList := fc.lruList.erase filePath }

/-- `lruList.MoveToFront` on the node holding `k`. -/
def moveToFront (l : List String) (k : String) : List String := k :: l.erase k

/-- Outcome of the shared-lock phase of `FileCache.Get`. -/
inductive ReadPhase where
  | notFound : ReadPhase
  | hit : Nat → ReadPhase
deriving DecidableEq

/-- Embedding of the first half of `FileCache.Get` (cache.go lines 557-582):
the `RLock` lookup and expiry check, including the write-locked
double-checked removal of an expired entry, up to the point where the
handle has been captured in `file` and the read lock dropped. -/
def FileCache.getReadPhase (fc : FileCache) (filePath : String) (now : Nat) :
    ReadPhase × FileCache :=
  match lookupEntry fc.cache filePath with
  | none => (.notFound, fc)
  | some entry =>
    if now > entry.expireAt then
      match lookupEntry fc.cache filePath with
      | some entry2 =>
        if now > entry2.expireAt then (.notFound, fc.removeEntry filePath entry2)
        else (.notFound, fc)
      | none => (.notFound, fc)
    else (.hit entry.file, fc)

/-- Embedding of the second half of `FileCache.Get` (cache.go lines 584-591):
the exclusive-lock re-validation that promotes the entry to
most-recently-used when it is still present and unexpired.  The previously
captured handle is returned by the caller regardless of this re-check. -/
def FileCache.getWritePhase (fc : FileCache) (filePath : String) (now : Nat) :
    FileCache :=
  match lookupEntry fc.cache filePath with
  | some entry =>
    if ¬ now > entry.expireAt then
      { fc with lruList := moveToFront fc.lruList filePath }
    else fc
  | none => fc

/-- Embedding of `FileCache.Get` under sequential (interference-free)
execution: the two critical sections run back to back with the same time
instant.  Returns the Go `(file, found)` pair as an `Option`. -/
def FileCache.Get (fc : FileCache) (filePath : String) (now : Nat) :
    Option Nat × FileCache :=
  match fc.getReadPhase filePath now with
  | (.notFound, fc1) => (none, fc1)
  | (.hit file, fc1) => (some file, fc1.getWritePhase filePath now)

/-- In-place update of an existing map entry (`entry.file = ...;
entry.expireAt = ...`). -/
def entryUpdate (m : List (String × CacheEntry)) (key : String)
    (e : CacheEntry) : List (String × CacheEntry) :=
  m.map fun p => if p.1 = key then (p.1, e) else p

/-- Embedding of `FileCache.evictOldest`: release the entry at the back of
the recency list, if its key is still in the map. -/
def FileCache.evictOldest (fc : FileCache) : FileCache :=
  match fc.lruList.getLast? with
  | none => fc
  | some filePath =>
    match lookupEntry fc.cache filePath with
    | some entry => fc.removeEntry filePath entry
    | none => fc

/-- The `for fc.lruList.Len() > fc.maxSize` eviction loop of `Put`, with
explicit fuel.  In any reachable (well-formed) state each `evictOldest`
removes one entry, so fuel equal to the list length always suffices; on the
unreachable stuck state where Go would spin forever, the model stops. -/
def evictLoop : Nat → FileCache → FileCache
  | 0, fc => fc
  | fuel + 1, fc =>
    if fc.lruList.length > fc.maxSize then evictLoop fuel fc.evictOldest
    else fc

/-- Embedding of `FileCache.Put`: update-in-place with a fresh deadline and a
promotion when the key exists (the displaced handle is not closed), otherwise
insert at the front and evict down to capacity. -/
def FileCache.Put (fc : FileCache) (filePath : String) (file : Nat)
    (now : Nat) : FileCache :=
  match lookupEntry fc.cache filePath with
  | some _ =>
    { fc with
        cache := entryUpdate fc.cache filePath
          { file := file, expireAt := now + fc.defaultTTL },
        lruList := moveToFront fc.lruList filePath }
  | none =>
    let fc1 := { fc with
        cache := (filePath, ⟨file, now + fc.defaultTTL⟩) :: fc.cache,
        lruList := filePath :: fc.lruList }
    evictLoop fc1.lruList.length fc1

/-- Embedding of `FileCache.Clear`: close every cached handle, empty the map,
re-initialise the recency list. -/
def FileCache.Clear (fc : FileCache) : FileCache :=
  { fc with closed := fc.closed ++ fc.cache.map (fun p => p.2.file),
            cache := [], lruList := [] }

/-- Body of the removal loop of `CleanExpired`: `if entry := fc.cache[fp];
entry != nil { fc.removeEntry(fp, entry) }`. -/
def removeIfPresent (acc : FileCache) (filePath : String) : FileCache :=
  match lookupEntry acc.cache filePath with
  | some entry => acc.removeEntry filePath entry
  | none => acc

/-- Embedding of `FileCache.CleanExpired`: collect the expired keys, then
remove each one that is still present. -/
def FileCache.CleanExpired (fc : FileCache) (now : Nat) : FileCache :=
  let toRemove := (fc.cache.filter fun p => decide (now > p.2.expireAt)).map Prod.fst
  toRemove.foldl removeIfPresent fc

/-- Embedding of `FileCache.Size`. -/
def FileCache.Size (fc : FileCache) : Nat := fc.cache.length

/-- Embedding of the `Manager` state (manager.go): the cache plus the
per-path `currentSheet` session map (an association list).  The cleanup
ticker and the open-file plumbing are side-effect machinery around the
operations modelled below. -/
structure Manager where
  cache : FileCache
  currentSheet : List (String × String)
deriving DecidableEq

/-- Embedding of `Manager.FlushCache` (manager.go lines 61-76): read the size,
clear the cache (closing every handle), reset the session map, return the
old size.  The `cache == nil` error branch is unreachable for a constructed
manager and is not modelled. -/
def Manager.FlushCache (m : Manager) : Nat × Manager :=
  let cacheSize := m.cache.Size
  let cache := m.cache.Clear
  (cacheSize, { cache := cache, currentSheet := [] })

/-- One firing of the ticker started by `StartCleanupTicker`: the background
goroutine calls `fc.CleanExpired()` on the cache only; the manager's
session map is not visible to it. -/
def Manager.tickerCleanExpired (m : Manager) (now : Nat) : Manager :=
  { m with cache := m.cache.CleanExpired now }

/-- A cache operation, for stating invariants over arbitrary call sequences. -/
inductive CacheOp where
  | get : String → Nat → CacheOp
  | put : String → Nat → Nat → CacheOp
  | clear : CacheOp
  | cleanExpired : Nat → CacheOp
deriving DecidableEq

/-- Apply one operation to the cache state. -/
def applyOp (fc : FileCache) : CacheOp → FileCache
  | .get k now => (fc.Get k now).2
  | .put k f now => fc.Put k f now
  | .clear => fc.Clear
  | .cleanExpired now => fc.CleanExpired now

/-- Run a sequence of cache operations. -/
def runOps (fc : FileCache) (ops : List CacheOp) : FileCache :=
  ops.foldl applyOp fc

/-- The execution of `FileCache.Get` in which a `Clear` (eviction of every
entry) interleaves between the shared-lock phase and the exclusive-lock
phase — a schedule the Go lock discipline permits, since the read lock is
released before the write lock is taken. -/
def interleavedGetClear (fc : FileCache) (filePath : String) (now : Nat) :
    Option Nat × FileCache :=
  match fc.getReadPhase filePath now with
  | (.notFound, fc1) => (none, fc1.Clear)
  | (.hit file, fc1) => (some file, fc1.Clear.getWritePhase filePath now)

/-!
The `FormulaExtractor` of formulas.go.  An open spreadsheet is modelled as
total functions from sheet name and cell name to cell text: `GetCellValue`
and `GetCellFormula` errors make the Go code skip the cell or treat it as
empty, which coincides with returning `""`.  The `headerCache` memoisation
map is pure caching of these functions' values and is dropped from the
model (it never changes a result, only repeated-lookup cost).
-/

/-- The external spreadsheet handle as the formula engine sees it. -/
structure XFile where
  getCellValue : String → String → String
  getCellFormula : String → String → String

/-- Embedding of `maxHeaderSearchDepth` (formulas.go). -/
def maxHeaderSearchDepth : Nat := 10

/-- One probe of the upward column scan in `findColumnHeader`: the trimmed
cell text at `(col, r)` when it is non-empty and not numeric; `none` when the
coordinate is invalid (Go `continue`) or the cell is rejected. -/
def colCandidate (fe : XFile) (sheetName : String) (col r : Nat) :
    Option String :=
  match coordinatesToCellName col r with
  | none => none
  | some cellName =>
    let value := trimSpace (fe.getCellValue sheetName cellName)
    if value ≠ "" ∧ ¬ isNumeric value then some value else none

/-- The `for r := searchStart; r >= searchEnd; r--` loop of
`findColumnHeader`, descending from `r`. -/
def scanColUp (fe : XFile) (sheetName : String) (col searchEnd : Nat) :
    Nat → String
  | 0 => ""
  | r + 1 =>
    if r + 1 < searchEnd then ""
    else
      match colCandidate fe sheetName col (r + 1) with
      | some v => v
      | none => scanColUp fe sheetName col searchEnd r

/-- Embedding of `FormulaExtractor.findColumnHeader` (memoisation dropped):
scan rows `row-1` down to `max 1 (row - maxHeaderSearchDepth)` in the same
column for the first non-empty non-numeric trimmed cell text. -/
def findColumnHeader (fe : XFile) (sheetName : String) (col row : Nat) :
    String :=
  scanColUp fe sheetName col (max 1 (row - maxHeaderSearchDepth)) (row - 1)

/-- One probe of the leftward row scan in `findRowHeader`. -/
def rowCandidate (fe : XFile) (sheetName : String) (c row : Nat) :
    Option String :=
  match coordinatesToCellName c row with
  | none => none
  | some cellName =>
    let value := trimSpace (fe.getCellValue sheetName cellName)
    if value ≠ "" ∧ ¬ isNumeric value then some value else none

/-- The `for c := searchStart; c >= searchEnd; c--` loop of `findRowHeader`,
descending from `c`. -/
def scanRowLeft (fe : XFile) (sheetName : String) (row searchEnd : Nat) :
    Nat → String
  | 0 => ""
  | c + 1 =>
    if c + 1 < searchEnd then ""
    else
      match rowCandidate fe sheetName (c + 1) row with
      | some v => v
      | none => scanRowLeft fe sheetName row searchEnd c

/-- Embedding of `FormulaExtractor.findRowHeader` (memoisation dropped). -/
def findRowHeader (fe : XFile) (sheetName : String) (col row : Nat) :
    String :=
  scanRowLeft fe sheetName row (max 1 (col - maxHeaderSearchDepth)) (col - 1)

/-- Embedding of `FormulaExtractor.getCellLabel`: the column (upward) header
if non-empty, else the row (leftward) header; empty on an unparsable cell
name. -/
def getCellLabel (fe : XFile) (sheetName cellName : String) : String :=
  match cellNameToCoordinates cellName with
  | none => ""
  | some (col, row) =>
    let colHeader := findColumnHeader fe sheetName col row
    if colHeader ≠ "" then colHeader
    else findRowHeader fe sheetName col row

/-- Embedding of `FormulaExtractor.getCellHeaderByReference`. -/
def getCellHeaderByReference (fe : XFile) (sheetName cellRef : String) :
    String :=
  match cellNameToCoordinates cellRef with
  | none => ""
  | some (col, row) =>
    let header := findColumnHeader fe sheetName col row
    if header ≠ "" then header
    else findRowHeader fe sheetName col row

/-- Length of the regex match `\$?[A-Z]+\$?\d+` anchored at the head of the
list, `none` when there is no match here.  The pieces are greedy and the
only backtracking point (the second `\$?`) can never rescue a failed digit
run, so the leftmost-first Go regexp semantics reduce to this direct scan. -/
def matchCellRefAt (cs : List Char) : Option Nat :=
  let (d1, r1) := match cs with
                  | '$' :: r => (1, r)
                  | _ => (0, cs)
  let letters := r1.takeWhile fun c => decide ('A' ≤ c ∧ c ≤ 'Z')
  if letters.isEmpty then none
  else
    let r2 := r1.drop letters.length
    let (d2, r3) := match r2 with
                    | '$' :: r => (1, r)
                    | _ => (0, r2)
    let digits := r3.takeWhile Char.isDigit
    if digits.isEmpty then none
    else some (d1 + letters.length + d2 + digits.length)

/-- The callback of `cellRefRegex.ReplaceAllStringFunc`: strip `$` and spaces,
resolve a header, keep the raw reference when no header exists. -/
def refReplacement (fe : XFile) (sheetName : String) (cellRef : List Char) :
    List Char :=
  let cleanRef := String.mk (cellRef.filter fun c => c != '$' && c != ' ')
  let header := getCellHeaderByReference fe sheetName cleanRef
  if header ≠ "" then header.toList else cellRef

/-- Scan of `ReplaceAllStringFunc`: walk the text left to right, replacing
each non-overlapping leftmost match.  `fuel` bounds the recursion; the
initial call passes the text length, which always suffices because every
step consumes at least one character. -/
def replaceRefs (fe : XFile) (sheetName : String) :
    Nat → List Char → List Char
  | 0, cs => cs
  | _ + 1, [] => []
  | fuel + 1, c :: rest =>
    match matchCellRefAt (c :: rest) with
    | some len =>
      refReplacement fe sheetName ((c :: rest).take len) ++
        replaceRefs fe sheetName fuel ((c :: rest).drop len)
    | none => c :: replaceRefs fe sheetName fuel rest

/-- Embedding of `FormulaExtractor.translateFormula`. -/
def translateFormula (fe : XFile) (sheetName formula : String) : String :=
  String.mk (replaceRefs fe sheetName formula.toList.length formula.toList)

/-- Embedding of `FormulaInfo` (formulas.go). -/
structure FormulaInfo where
  Sheet : String
  Cell : String
  Formula : String
  Value : String
  TranslatedFormula : String
  Label : String
deriving DecidableEq

/-- The per-cell body of the range loop in `ExtractFormulasFromRange`:
`none` when the coordinate is invalid (Go `continue`) or the cell holds no
formula, otherwise the record appended for that cell. -/
def rangeCellRecord (fe : XFile) (sheetName : String) (row col : Nat) :
    Option FormulaInfo :=
  match coordinatesToCellName col row with
  | none => none
  | some cellName =>
    let formula := fe.getCellFormula sheetName cellName
    if formula ≠ "" then
      some { Sheet := sheetName, Cell := cellName, Formula := formula,
             Value := fe.getCellValue sheetName cellName,
             TranslatedFormula := translateFormula fe sheetName formula,
             Label := getCellLabel fe sheetName cellName }
    else none

/-- Embedding of `FormulaExtractor.ExtractFormulasFromRange` (formulas.go
lines 108-160): split on `:`, demand exactly two parts, parse both cell
names, then collect one record per formula-bearing cell of the rectangle in
row-major order.  `GetCellValue` errors inside the loop blank the value and
`GetCellFormula` errors skip the cell; the model's total cell functions
subsume both. -/
def ExtractFormulasFromRange (fe : XFile) (sheetName rangeRef : String) :
    Except String (List FormulaInfo) :=
  match goSplit rangeRef ':' with
  | [startRef, endRef] =>
    match cellNameToCoordinates startRef with
    | none => .error "invalid start cell"
    | some (startCol, startRow) =>
      match cellNameToCoordinates endRef with
      | none => .error "invalid end cell"
      | some (endCol, endRow) =>
        .ok ((List.range' startRow (endRow + 1 - startRow)).flatMap fun row =>
          (List.range' startCol (endCol + 1 - startCol)).filterMap fun col =>
            rangeCellRecord fe sheetName row col)
  | _ => .error "invalid range format, expected A1:C3"

/-- Spec-side reading of the range precondition: the range string splits on
`:` into exactly two components that each parse as cell coordinates. -/
def parseRangeRef (rangeRef : String) : Option (Nat × Nat × Nat × Nat) :=
  match goSplit rangeRef ':' with
  | [startRef, endRef] =>
    match cellNameToCoordinates startRef, cellNameToCoordinates endRef with
    | some (sc, sr), some (ec, er) => some (sc, sr, ec, er)
    | _, _ => none
  | _ => none

/-- The list carried by an `ok` result (`[]` for errors). -/
def okList (r : Except String (List FormulaInfo)) : List FormulaInfo :=
  match r with
  | .ok l => l
  | .error _ => []

/-!
`GetSheetStats` and `classifyDataType` of manager.go.  The manager's file
and sheet plumbing around the computation (`OpenFile`, current-sheet
resolution, `GetRows`) delivers a row-major `[][]string`; the statistics
pass itself is embedded verbatim over that value.  The Go `map[string]int`
of type tags becomes an association list updated by `bumpCount`.
-/

/-- Embedding of `classifyDataType` (manager.go lines 512-536): trim, then
try integer, float, boolean, the date heuristic, and fall back to text.
`len(trimmed)` is the byte length, `String.utf8ByteSize` here. -/
def classifyDataType (value : String) : String :=
  let trimmed := trimSpace value
  if trimmed = "" then "empty"
  else if (goParseInt64? trimmed).isSome then "integer"
  else if goParseFloatOk trimmed then "number"
  else if goToLower trimmed = "true" ∨ goToLower trimmed = "false" then "boolean"
  else if trimmed.utf8ByteSize ≥ 8 ∧
      (trimmed.toList.contains '/' ∨ trimmed.toList.contains '-') then "date"
  else "text"

/-- Embedding of `SheetStats` (manager.go). -/
structure SheetStats where
  RowCount : Nat
  ColumnCount : Nat
  NonEmptyRows : Nat
  NonEmptyCells : Nat
  DataTypes : List (String × Nat)
  FirstDataRow : Nat
  LastDataRow : Nat
  FirstDataCol : String
  LastDataCol : String
deriving DecidableEq

/-- `stats.DataTypes[dataType]++` on the association-list model of the map. -/
def bumpCount : List (String × Nat) → String → List (String × Nat)
  | [], k => [(k, 1)]
  | (k', v) :: rest, k =>
    if k' = k then (k', v + 1) :: rest else (k', v) :: bumpCount rest k

/-- State of the inner (per-cell) loop of `GetSheetStats`. -/
structure CellScan where
  stats : SheetStats
  hasData : Bool
  rowFirstCol : Int
  rowLastCol : Int
  firstDataRowFound : Bool

/-- State of the outer (per-row) loop of `GetSheetStats`. -/
structure RowScan where
  stats : SheetStats
  maxColumns : Nat
  firstDataRowFound : Bool
  firstDataCol : Int
  lastDataCol : Int

/-- The body of `for colIdx, cell := range row` in `GetSheetStats`. -/
def processCell (rowIdx : Nat) (st : CellScan) (p : Nat × String) : CellScan :=
  if trimSpace p.2 ≠ "" then
    let stats := st.stats
    let stats := { stats with NonEmptyCells := stats.NonEmptyCells + 1 }
    let rowFirstCol := if st.rowFirstCol = -1 then (p.1 : Int) else st.rowFirstCol
    let stats :=
      if ¬ st.firstDataRowFound then { stats with FirstDataRow := rowIdx + 1 }
      else stats
    let stats := { stats with LastDataRow := rowIdx + 1 }
    let stats :=
      { stats with DataTypes := bumpCount stats.DataTypes (classifyDataType p.2) }
    { stats := stats, hasData := true, rowFirstCol := rowFirstCol,
      rowLastCol := (p.1 : Int), firstDataRowFound := true }
  else st

/-- The body of `for rowIdx, row := range rows` in `GetSheetStats`, including
the post-row bookkeeping of `NonEmptyRows`, `firstDataCol` and
`lastDataCol` (note the Go sentinel: `firstDataCol == 0` stands both for
"unset" and for "column A"). -/
def processRow (st : RowScan) (p : Nat × List String) : RowScan :=
  let maxColumns := if p.2.length > st.maxColumns then p.2.length else st.maxColumns
  let inner := p.2.enum.foldl (processCell p.1)
    { stats := st.stats, hasData := false, rowFirstCol := -1, rowLastCol := -1,
      firstDataRowFound := st.firstDataRowFound }
  if inner.hasData then
    let stats := { inner.stats with NonEmptyRows := inner.stats.NonEmptyRows + 1 }
    let firstDataCol :=
      if st.firstDataCol = 0 ∨ (inner.rowFirstCol ≥ 0 ∧ inner.rowFirstCol < st.firstDataCol)
      then inner.rowFirstCol else st.firstDataCol
    let lastDataCol :=
      if inner.rowLastCol > st.lastDataCol then inner.rowLastCol else st.lastDataCol
    { stats := stats, maxColumns := maxColumns,
      firstDataRowFound := inner.firstDataRowFound,
      firstDataCol := firstDataCol, lastDataCol := lastDataCol }
  else
    { stats := inner.stats, maxColumns := maxColumns,
      firstDataRowFound := inner.firstDataRowFound,
      firstDataCol := st.firstDataCol, lastDataCol := st.lastDataCol }

/-- Embedding of `Manager.GetSheetStats` (manager.go lines 420-509) over the
row-major cell text delivered by `file.GetRows`. -/
def getSheetStats (rows : List (List String)) : SheetStats :=
  let stats0 : SheetStats :=
    { RowCount := rows.length, ColumnCount := 0, NonEmptyRows := 0,
      NonEmptyCells := 0, DataTypes := [], FirstDataRow := 0, LastDataRow := 0,
      FirstDataCol := "", LastDataCol := "" }
  if rows.length = 0 then stats0
  else
    let fin := rows.enum.foldl processRow
      { stats := stats0, maxColumns := 0, firstDataRowFound := false,
        firstDataCol := 0, lastDataCol := 0 }
    let stats := { fin.stats with ColumnCount := fin.maxColumns }
    let stats :=
      if fin.firstDataCol ≥ 0 then
        { stats with FirstDataCol := columnNumberToName (fin.firstDataCol + 1).toNat }
      else stats
    if fin.lastDataCol ≥ 0 then
      { stats with LastDataCol := columnNumberToName (fin.lastDataCol + 1).toNat }
    else stats

/-!
Invariants and concrete example states used by the theorems below.
-/

/-- Keys of the cache map, in association-list order. -/
def keysOf (fc : FileCache) : List String := fc.cache.map Prod.fst

/-- The representation invariant of `FileCache`: the map keys are unique,
the recency list is a permutation of them (same members, same multiplicity),
and the entry count is within capacity. -/
def CacheWF (fc : FileCache) : Prop :=
  (keysOf fc).Nodup ∧ fc.lruList.Perm (keysOf fc) ∧
  fc.cache.length ≤ fc.maxSize

/-- Handle-liveness: no handle still held by the cache has been closed.
Every reachable state of a cache fed fresh handles satisfies this. -/
def HandlesLive (fc : FileCache) : Prop :=
  ∀ p ∈ fc.cache, p.2.file ∉ fc.closed

/-- A one-entry cache about to be read: handle `1` under key `"a"`, expiring
at instant `100`. -/
def cexCache : FileCache :=
  { cache := [("a", ⟨1, 100⟩)], lruList := ["a"], maxSize := 10,
    defaultTTL := 50, closed := [] }

/-- Two `Put` calls with the same key and distinct handles, followed by the
`Clear` teardown: the run exercising the handle-release discipline. -/
def leakRun : FileCache :=
  (((NewFileCache 10 100).Put "a" 1 0).Put "a" 2 0).Clear

/-- The capacity-2 scenario: `Put A`, `Put B`, `Get A`, `Put C`, all within
TTL (handles 1, 2, 3; instants 0, 1, 2, 3). -/
def lruRun : FileCache :=
  ((((NewFileCache 2 100).Put "A" 1 0).Put "B" 2 1).Get "A" 2).2.Put "C" 3 3

/-- A one-entry expired cache (deadline 10) for the expiry theorems. -/
def expiredCache : FileCache :=
  { cache := [("k", ⟨7, 10⟩)], lruList := ["k"], maxSize := 10,
    defaultTTL := 50, closed := [] }

/-- A manager holding an open handle for path `"a"` (deadline 10) with a
session sheet selected for that path. -/
def staleMgr : Manager :=
  { cache := { cache := [("a", ⟨1, 10⟩)], lruList := ["a"], maxSize := 10,
               defaultTTL := 50, closed := [] },
    currentSheet := [("a", "Sheet2")] }

/-- A sheet with a formula in `B2` and header text in `A1`. -/
def sampleFile : XFile :=
  { getCellFormula := fun _ cn => if cn = "B2" then "=A1+1" else "",
    getCellValue := fun _ cn =>
      if cn = "A1" then "Total" else if cn = "B2" then "5" else "" }

/-- A sheet whose only non-empty cell is the text `Revenue` in column A at
row `hr`. -/
def headerSheet (hr : Nat) : XFile :=
  { getCellValue := fun _ cn => if cn = "A" ++ toString hr then "Revenue" else "",
    getCellFormula := fun _ _ => "" }

/-- Rows whose leftmost non-empty column overall is A (first row) while a
later row has data only in column D. -/
def bugRows : List (List String) := [["x"], ["", "", "", "y"]]

/-- The header-plus-two-data-rows sheet of the stats round-trip property. -/
def roundTripRows : List (List String) :=
  [["Name", "Age", "City"], ["John", "30", "New York"],
   ["Jane", "25", "Los Angeles"]]

/-- Total count over the data-type tag map. -/
def sumCounts (m : List (String × Nat)) : Nat := (m.map Prod.snd).sum

/-- The five tags `classifyDataType` can produce for a non-blank cell. -/
def dtTags : List String := ["integer", "number", "boolean", "date", "text"]

/-!
Helper lemmas about the association-list map.
-/

theorem lookupEntry_mem {m : List (String × CacheEntry)} {k : String}
    {e : CacheEntry} (h : lookupEntry m k = some e) : (k, e) ∈ m := by
  induction m with
  | nil => simp [lookupEntry] at h
  | cons p rest ih =>
    obtain ⟨k', e'⟩ := p
    simp only [lookupEntry] at h
    split at h
    · next heq => cases h; subst heq; exact List.mem_cons_self _ _
    · exact List.mem_cons_of_mem _ (ih h)

theorem lookupEntry_mem_keys {m : List (String × CacheEntry)} {k : String}
    {e : CacheEntry} (h : lookupEntry m k = some e) : k ∈ m.map Prod.fst := by
  exact List.mem_map.mpr ⟨(k, e), lookupEntry_mem h, rfl⟩

theorem lookupEntry_none_not_mem {m : List (String × CacheEntry)} {k : String}
    (h : lookupEntry m k = none) : k ∉ m.map Prod.fst := by
  induction m with
  | nil => simp
  | cons p rest ih =>
    obtain ⟨k', e'⟩ := p
    simp only [lookupEntry] at h
    split at h
    · cases h
    · next hne =>
      simp only [List.map_cons, List.mem_cons]
      rintro (rfl | hmem)
      · exact hne rfl
      · exact ih h hmem

theorem mem_keys_lookupEntry {m : List (String × CacheEntry)} {k : String}
    (h : k ∈ m.map Prod.fst) : ∃ e, lookupEntry m k = some e := by
  induction m with
  | nil => simp at h
  | cons p rest ih =>
    obtain ⟨k', e'⟩ := p
    simp only [List.map_cons, List.mem_cons] at h
    by_cases heq : k' = k
    · exact ⟨e', by simp [lookupEntry, heq]⟩
    · have hk : k ∈ rest.map Prod.fst := by
        rcases h with rfl | h
        · exact absurd rfl heq
        · exact h
      obtain ⟨e, he⟩ := ih hk
      exact ⟨e, by simp [lookupEntry, heq, he]⟩

theorem lookupEntry_filter_ne (m : List (String × CacheEntry)) (k : String) :
    lookupEntry (m.filter fun p => p.1 != k) k = none := by
  induction m with
  | nil => rfl
  | cons p rest ih =>
    obtain ⟨k', e'⟩ := p
    by_cases heq : k' = k
    · simp [List.filter_cons, heq, ih]
    · have hb : ((k', e').1 != k) = true := by simp [bne_iff_ne, heq]
      simp [List.filter_cons, hb, lookupEntry, heq, ih]

theorem keys_filter_ne (m : List (String × CacheEntry)) (k : String) :
    (m.filter fun p => p.1 != k).map Prod.fst =
      (m.map Prod.fst).filter (fun x => x != k) := by
  induction m with
  | nil => rfl
  | cons p rest ih =>
    obtain ⟨k', e'⟩ := p
    by_cases heq : k' = k <;>
      simp [List.filter_cons, bne_iff_ne, heq, ih]

theorem keys_entryUpdate (m : List (String × CacheEntry)) (k : String)
    (e : CacheEntry) : (entryUpdate m k e).map Prod.fst = m.map Prod.fst := by
  unfold entryUpdate
  rw [List.map_map]
  apply List.map_congr_left
  intro p _
  by_cases heq : p.1 = k <;> simp [heq]

theorem filter_ne_of_not_mem {l : List String} {k : String} (h : k ∉ l) :
    l.filter (fun x => x != k) = l := by
  refine List.filter_eq_self.mpr ?_
  intro x hx
  simp only [bne_iff_ne, ne_eq, decide_eq_true_eq]
  rintro rfl
  exact h hx

theorem nodup_erase_eq_filter (l : List String) (k : String) (h : l.Nodup) :
    l.erase k = l.filter (fun x => x != k) := by
  induction l with
  | nil => rfl
  | cons a l ih =>
    rcases List.nodup_cons.mp h with ⟨ha, hl⟩
    by_cases heq : a = k
    · subst heq
      simp [List.erase_cons_head, List.filter_cons, filter_ne_of_not_mem ha]
    · have hbeq : (a == k) = false := by simp [heq]
      simp [List.erase_cons, hbeq, List.filter_cons, bne_iff_ne, heq, ih hl]

/-!
Claim theorems (with their counterexamples and witnesses), in claim order.
-/

/-- C1, counterexample.  The claim says a `Get` that returns `found = true`
never hands back an already-released handle, for every interleaving with a
concurrent eviction.  In the schedule where `Clear` runs between `Get`'s
shared-lock phase and its exclusive-lock re-validation, `Get` on `cexCache`
still returns `(handle 1, found)` although handle 1 is already in the closed
log of the final state: the re-check guards only the LRU promotion, not the
returned handle, which was captured before the read lock was dropped. -/
theorem claim_C1_counterexample :
    (interleavedGetClear cexCache "a" 0).1 = some 1 ∧
    1 ∈ (interleavedGetClear cexCache "a" 0).2.closed := by
  decide

theorem getWritePhase_effects (fc : FileCache) (k : String) (now : Nat) :
    (fc.getWritePhase k now).closed = fc.closed ∧
    (fc.getWritePhase k now).cache = fc.cache := by
  unfold FileCache.getWritePhase
  cases lookupEntry fc.cache k with
  | none => exact ⟨rfl, rfl⟩
  | some e =>
    by_cases h : ¬ now > e.expireAt <;> simp [h]

/-- C1, amended.  Under sequential (interference-free) execution a `Get`
that returns a handle never returns a closed one (given the handle-liveness
invariant of reachable states), and the exclusive-lock re-validation phase
of `Get` touches neither the map nor the release log — it only reorders the
recency list.  The protection the spec ascribes to the re-check therefore
holds for the LRU structures only; a handle released by an eviction that
interleaves between the two phases is still returned (see the
counterexample). -/
theorem claim_C1_amended (fc : FileCache) (k : String) (now : Nat) (f : Nat)
    (fc2 : FileCache) (hlive : HandlesLive fc)
    (h : fc.Get k now = (some f, fc2)) :
    f ∉ fc2.closed ∧
    (fc.getWritePhase k now).closed = fc.closed ∧
    (fc.getWritePhase k now).cache = fc.cache := by
  refine ⟨?_, (getWritePhase_effects fc k now).1, (getWritePhase_effects fc k now).2⟩
  cases hl : lookupEntry fc.cache k with
  | none => simp [FileCache.Get, FileCache.getReadPhase, hl] at h
  | some e =>
    simp only [FileCache.Get, FileCache.getReadPhase, hl] at h
    by_cases hexp : now > e.expireAt
    · simp [hexp] at h
    · simp only [if_neg hexp, Prod.mk.injEq, Option.some.injEq] at h
      obtain ⟨rfl, rfl⟩ := h
      rw [(getWritePhase_effects fc k now).1]
      exact hlive (k, e) (lookupEntry_mem hl)

theorem claim_C1_witness : 1 ∉ (cexCache.Get "a" 0).2.closed :=
  (claim_C1_amended cexCache "a" 0 1 (cexCache.Get "a" 0).2
    (by unfold HandlesLive; decide) (by decide)).1

/-- C3, evaluation at the failing input.  `Put "a" 1`, then `Put "a" 2`
(same key), then the `Clear` teardown: the update branch of `Put`
overwrites `entry.file` without closing the displaced handle, so handle 1
is closed zero times — never — while the claim (and spec §3) require every
inserted handle to be released exactly once by a later cache operation. -/
theorem claim_C3_bug_eval :
    leakRun.cache = [] ∧ leakRun.closed = [2] ∧
    leakRun.closed.count 1 = 0 := by
  decide

/-- C4, counterexample.  After the cleanup ticker fires on a manager whose
only cache entry (path `"a"`, deadline 10) has expired, the entry is gone
from the cache but the session sheet selection for `"a"` is intact:
`FileCache.removeEntry` has no access to `Manager.currentSheet`, so
TTL-driven cleanup (and likewise LRU eviction) does not invalidate per-path
session state, contrary to the claim. -/
theorem claim_C4_counterexample :
    lookupEntry (staleMgr.tickerCleanExpired 11).cache.cache "a" = none ∧
    (staleMgr.tickerCleanExpired 11).currentSheet = [("a", "Sheet2")] := by
  decide

/-- C4, amended.  Session state is invalidated only by the explicit flush:
`FlushCache` empties the cache (returning the prior size) and resets the
whole `currentSheet` map in the same step, while the ticker-driven
`CleanExpired` sweep leaves `currentSheet` untouched. -/
theorem claim_C4_amended (m : Manager) (now : Nat) :
    m.FlushCache.2.currentSheet = [] ∧
    m.FlushCache.2.cache.cache = [] ∧
    m.FlushCache.1 = m.cache.Size ∧
    (m.tickerCleanExpired now).currentSheet = m.currentSheet :=
  ⟨rfl, rfl, rfl, rfl⟩

theorem claim_C4_witness :
    (staleMgr.tickerCleanExpired 11).currentSheet = staleMgr.currentSheet :=
  (claim_C4_amended staleMgr 11).2.2.2

/-- C5, counterexample.  `"B2:A1"` splits into two components that both
parse as valid cell coordinates but with the first cell not preceding the
second (start row 2 > end row 1, start column 2 > end column 1); the claim
says the call must fail with an error, yet it succeeds with an empty
result: the code never compares the two corners, it only runs loops that
are empty for a reversed rectangle. -/
theorem claim_C5_counterexample :
    cellNameToCoordinates "B2" = some (2, 2) ∧
    cellNameToCoordinates "A1" = some (1, 1) ∧
    ExtractFormulasFromRange sampleFile "Sheet1" "B2:A1" = .ok [] :=
  ⟨by decide, by decide, rfl⟩

/-- C7.  The LRU scenario at capacity 2: after `Put A`, `Put B`, `Get A`,
`Put C` (all within TTL), exactly B's handle (2) has been closed, key B is
gone, and A and C are still retrievable with their original handles —
`Get` promoted A to most-recently-used, so `Put C` evicted B. -/
theorem claim_C7 :
    lruRun.closed = [2] ∧
    lookupEntry lruRun.cache "B" = none ∧
    (lruRun.Get "A" 4).1 = some 1 ∧
    (lruRun.Get "C" 4).1 = some 3 := by
  decide

/-- C9, evaluation at the failing input.  On `bugRows` the leftmost column
holding non-blank data is column A (cell `"x"` in row 1), but
`GetSheetStats` reports `FirstDataCol = "D"`: the accumulator `firstDataCol`
uses `0` both as "unset" and as "column index 0", so the second row (data
only in column D) overwrites the already-recorded column A.  On the claim's
own round-trip sheet the remaining reported fields are as stated. -/
theorem claim_C9_bug_eval :
    (getSheetStats bugRows).FirstDataCol = "D" ∧
    trimSpace "x" ≠ "" ∧ columnNumberToName 1 = "A" ∧
    (getSheetStats roundTripRows).RowCount = 3 ∧
    (getSheetStats roundTripRows).NonEmptyCells = 9 ∧
    (getSheetStats roundTripRows).FirstDataRow = 1 ∧
    (getSheetStats roundTripRows).LastDataCol = "C" := by
  decide

theorem length_filter_keys {m : List (String × CacheEntry)} {k : String}
    (hnd : (m.map Prod.fst).Nodup) (hmem : k ∈ m.map Prod.fst) :
    (m.filter fun p => p.1 != k).length + 1 = m.length := by
  have h1 : (m.filter fun p => p.1 != k).length =
      ((m.map Prod.fst).filter (fun x => x != k)).length := by
    rw [← keys_filter_ne, List.length_map]
  rw [h1, ← nodup_erase_eq_filter _ _ hnd]
  have h2 := List.length_erase_of_mem hmem
  have h3 : 0 < (m.map Prod.fst).length := List.length_pos_of_mem hmem
  rw [List.length_map] at h2 h3
  rw [h2]
  omega

/-- C6.  An entry whose deadline has passed (current instant strictly after
`expireAt`, the `time.Now().After` test) is reported not-found by `Get`,
regardless of the rest of the state — in particular whether any
`CleanExpired` sweep ran before — and `Get` itself purges it, so the key is
no longer in the map and (in a well-formed state) `Size` drops by one. -/
theorem claim_C6 (fc : FileCache) (k : String) (now : Nat) (e : CacheEntry)
    (hl : lookupEntry fc.cache k = some e) (hexp : now > e.expireAt) :
    (fc.Get k now).1 = none ∧
    lookupEntry (fc.Get k now).2.cache k = none ∧
    ((keysOf fc).Nodup → (fc.Get k now).2.Size + 1 = fc.Size) := by
  have hGet : fc.Get k now = (none, fc.removeEntry k e) := by
    simp [FileCache.Get, FileCache.getReadPhase, hl, hexp]
  refine ⟨by rw [hGet], ?_, ?_⟩
  · rw [hGet]
    exact lookupEntry_filter_ne fc.cache k
  · intro hnd
    rw [hGet]
    exact length_filter_keys hnd (lookupEntry_mem_keys hl)

theorem claim_C6_witness :
    (expiredCache.Get "k" 11).1 = none ∧
    lookupEntry (expiredCache.Get "k" 11).2.cache "k" = none ∧
    (expiredCache.Get "k" 11).2.Size + 1 = expiredCache.Size := by
  have h := claim_C6 expiredCache "k" 11 ⟨7, 10⟩ (by decide) (by decide)
  exact ⟨h.1, h.2.1, h.2.2 (by unfold keysOf; decide)⟩

/-!
Preservation of the representation invariant (claim C2).
-/

theorem removeEntry_keys (fc : FileCache) (k : String) (e : CacheEntry) :
    keysOf (fc.removeEntry k e) = (keysOf fc).filter (fun x => x != k) :=
  keys_filter_ne fc.cache k

theorem removeEntry_wf (fc : FileCache) (k : String) (e : CacheEntry)
    (h1 : (keysOf fc).Nodup) (h2 : fc.lruList.Perm (keysOf fc)) :
    (keysOf (fc.removeEntry k e)).Nodup ∧
    (fc.removeEntry k e).lruList.Perm (keysOf (fc.removeEntry k e)) ∧
    (fc.removeEntry k e).cache.length ≤ fc.cache.length ∧
    (fc.removeEntry k e).maxSize = fc.maxSize := by
  refine ⟨?_, ?_, ?_, rfl⟩
  · rw [removeEntry_keys]
    exact h1.filter _
  · rw [removeEntry_keys, ← nodup_erase_eq_filter _ _ h1]
    exact h2.erase k
  · exact List.length_filter_le _ _

theorem mem_of_getLast?_eq {l : List String} {a : String}
    (h : l.getLast? = some a) : a ∈ l := by
  induction l with
  | nil => simp [List.getLast?] at h
  | cons b l ih =>
    cases l with
    | nil =>
      simp [List.getLast?] at h
      simp [h]
    | cons c l =>
      rw [List.getLast?_cons_cons] at h
      exact List.mem_cons_of_mem _ (ih h)

theorem evictOldest_wf (fc : FileCache)
    (h1 : (keysOf fc).Nodup) (h2 : fc.lruList.Perm (keysOf fc))
    (hne : fc.lruList ≠ []) :
    (keysOf fc.evictOldest).Nodup ∧
    fc.evictOldest.lruList.Perm (keysOf fc.evictOldest) ∧
    fc.evictOldest.cache.length + 1 = fc.cache.length ∧
    fc.evictOldest.maxSize = fc.maxSize := by
  cases hg : fc.lruList.getLast? with
  | none =>
    exact absurd (List.getLast?_eq_none_iff.mp hg) hne
  | some key =>
    have hmem : key ∈ keysOf fc := h2.mem_iff.mp (mem_of_getLast?_eq hg)
    obtain ⟨e, he⟩ := mem_keys_lookupEntry hmem
    have hE : fc.evictOldest = fc.removeEntry key e := by
      unfold FileCache.evictOldest
      rw [hg]
      simp [he]
    rw [hE]
    obtain ⟨n1, p1, _, m1⟩ := removeEntry_wf fc key e h1 h2
    exact ⟨n1, p1, length_filter_keys h1 hmem, m1⟩

theorem evictLoop_wf : ∀ (fuel : Nat) (fc : FileCache),
    (keysOf fc).Nodup → fc.lruList.Perm (keysOf fc) →
    ((keysOf (evictLoop fuel fc)).Nodup ∧
     (evictLoop fuel fc).lruList.Perm (keysOf (evictLoop fuel fc)) ∧
     (evictLoop fuel fc).maxSize = fc.maxSize ∧
     (fc.cache.length ≤ fc.maxSize + fuel →
       (evictLoop fuel fc).cache.length ≤ fc.maxSize)) := by
  intro fuel
  induction fuel with
  | zero =>
    intro fc h1 h2
    exact ⟨h1, h2, rfl, fun h => by simpa using h⟩
  | succ fuel ih =>
    intro fc h1 h2
    by_cases hc : fc.lruList.length > fc.maxSize
    · have hne : fc.lruList ≠ [] := by
        intro hnil
        rw [hnil] at hc
        simp at hc
      obtain ⟨n1, p1, hlen, hmax⟩ := evictOldest_wf fc h1 h2 hne
      obtain ⟨n2, p2, hmax2, hb2⟩ := ih fc.evictOldest n1 p1
      simp only [evictLoop, if_pos hc]
      refine ⟨n2, p2, hmax2.trans hmax, fun hb => ?_⟩
      have : fc.evictOldest.cache.length ≤ fc.evictOldest.maxSize + fuel := by
        rw [hmax]
        omega
      have := hb2 this
      rw [hmax] at this
      exact this
    · simp only [evictLoop, if_neg hc]
      refine ⟨h1, h2, by trivial, fun _ => ?_⟩
      have hlk : fc.lruList.length = (keysOf fc).length := h2.length_eq
      have hkc : (keysOf fc).length = fc.cache.length := List.length_map _ _
      omega

theorem put_wf (fc : FileCache) (k : String) (f now : Nat) (h : CacheWF fc) :
    CacheWF (fc.Put k f now) ∧ (fc.Put k f now).maxSize = fc.maxSize := by
  obtain ⟨h1, h2, h3⟩ := h
  unfold FileCache.Put
  cases hl : lookupEntry fc.cache k with
  | some e =>
    have hkeys : keysOf { fc with
        cache := entryUpdate fc.cache k ⟨f, now + fc.defaultTTL⟩,
        lruList := moveToFront fc.lruList k } = keysOf fc :=
      keys_entryUpdate fc.cache k _
    have hmem : k ∈ fc.lruList := h2.mem_iff.mpr (lookupEntry_mem_keys hl)
    refine ⟨⟨?_, ?_, ?_⟩, rfl⟩
    · rw [hkeys]; exact h1
    · rw [hkeys]
      exact ((List.perm_cons_erase hmem).symm).trans h2
    · show (entryUpdate fc.cache k _).length ≤ fc.maxSize
      unfold entryUpdate
      rw [List.length_map]
      exact h3
  | none =>
    have hnot : k ∉ keysOf fc := lookupEntry_none_not_mem hl
    set fc1 : FileCache := { fc with
        cache := (k, ⟨f, now + fc.defaultTTL⟩) :: fc.cache,
        lruList := k :: fc.lruList } with hfc1
    have hk1 : keysOf fc1 = k :: keysOf fc := rfl
    have n1 : (keysOf fc1).Nodup := by
      rw [hk1]
      exact List.nodup_cons.mpr ⟨hnot, h1⟩
    have p1 : fc1.lruList.Perm (keysOf fc1) := by
      rw [hk1]
      exact h2.cons k
    obtain ⟨n2, p2, hmax2, hb2⟩ := evictLoop_wf fc1.lruList.length fc1 n1 p1
    have hlen1 : fc1.cache.length ≤ fc1.maxSize + fc1.lruList.length := by
      have hlk : fc.lruList.length = (keysOf fc).length := h2.length_eq
      have hkc : (keysOf fc).length = fc.cache.length := List.length_map _ _
      show fc.cache.length + 1 ≤ fc.maxSize + (fc.lruList.length + 1)
      omega
    refine ⟨⟨n2, p2, ?_⟩, hmax2⟩
    have := hb2 hlen1
    rw [hmax2]
    exact this

theorem get_wf (fc : FileCache) (k : String) (now : Nat) (h : CacheWF fc) :
    CacheWF (fc.Get k now).2 ∧ (fc.Get k now).2.maxSize = fc.maxSize := by
  obtain ⟨h1, h2, h3⟩ := h
  cases hl : lookupEntry fc.cache k with
  | none =>
    have hGet : fc.Get k now = (none, fc) := by
      simp [FileCache.Get, FileCache.getReadPhase, hl]
    rw [hGet]
    exact ⟨⟨h1, h2, h3⟩, rfl⟩
  | some e =>
    by_cases hexp : now > e.expireAt
    · have hGet : fc.Get k now = (none, fc.removeEntry k e) := by
        simp [FileCache.Get, FileCache.getReadPhase, hl, hexp]
      rw [hGet]
      obtain ⟨n1, p1, hle, hm⟩ := removeEntry_wf fc k e h1 h2
      exact ⟨⟨n1, p1, by rw [hm]; exact hle.trans h3⟩, hm⟩
    · have hGet : fc.Get k now = (some e.file, fc.getWritePhase k now) := by
        simp [FileCache.Get, FileCache.getReadPhase, hl, hexp]
      rw [hGet]
      have hwp : fc.getWritePhase k now =
          { fc with lruList := moveToFront fc.lruList k } := by
        unfold FileCache.getWritePhase
        rw [hl]
        simp [hexp]
      rw [hwp]
      have hmem : k ∈ fc.lruList := h2.mem_iff.mpr (lookupEntry_mem_keys hl)
      exact ⟨⟨h1, ((List.perm_cons_erase hmem).symm).trans h2, h3⟩, rfl⟩

theorem cleanFold_wf : ∀ (l : List String) (fc : FileCache),
    (keysOf fc).Nodup → fc.lruList.Perm (keysOf fc) →
    (keysOf (l.foldl removeIfPresent fc)).Nodup ∧
    (l.foldl removeIfPresent fc).lruList.Perm (keysOf (l.foldl removeIfPresent fc)) ∧
    (l.foldl removeIfPresent fc).cache.length ≤ fc.cache.length ∧
    (l.foldl removeIfPresent fc).maxSize = fc.maxSize := by
  intro l
  induction l with
  | nil => intro fc h1 h2; exact ⟨h1, h2, le_refl _, rfl⟩
  | cons a l ih =>
    intro fc h1 h2
    rw [List.foldl_cons]
    cases ha : lookupEntry fc.cache a with
    | none =>
      have hstep : removeIfPresent fc a = fc := by
        unfold removeIfPresent
        rw [ha]
      rw [hstep]
      exact ih fc h1 h2
    | some e =>
      have hstep : removeIfPresent fc a = fc.removeEntry a e := by
        unfold removeIfPresent
        rw [ha]
      rw [hstep]
      obtain ⟨n1, p1, hle, hm⟩ := removeEntry_wf fc a e h1 h2
      obtain ⟨n2, p2, hle2, hm2⟩ := ih (fc.removeEntry a e) n1 p1
      exact ⟨n2, p2, hle2.trans hle, hm2.trans hm⟩

theorem applyOp_wf (fc : FileCache) (op : CacheOp) (h : CacheWF fc) :
    CacheWF (applyOp fc op) ∧ (applyOp fc op).maxSize = fc.maxSize := by
  obtain ⟨h1, h2, h3⟩ := h
  cases op with
  | get k now => exact get_wf fc k now ⟨h1, h2, h3⟩
  | put k f now => exact put_wf fc k f now ⟨h1, h2, h3⟩
  | clear =>
    show CacheWF fc.Clear ∧ fc.Clear.maxSize = fc.maxSize
    have hk : keysOf fc.Clear = [] := rfl
    refine ⟨⟨?_, ?_, ?_⟩, rfl⟩
    · rw [hk]; exact List.nodup_nil
    · rw [hk]; exact List.Perm.refl []
    · exact Nat.zero_le _
  | cleanExpired now =>
    show CacheWF (fc.CleanExpired now) ∧ (fc.CleanExpired now).maxSize = fc.maxSize
    have hCE : fc.CleanExpired now =
        ((fc.cache.filter fun p => decide (now > p.2.expireAt)).map Prod.fst).foldl
          removeIfPresent fc := rfl
    rw [hCE]
    obtain ⟨n1, p1, hle, hm⟩ := cleanFold_wf
      ((fc.cache.filter fun p => decide (now > p.2.expireAt)).map Prod.fst) fc h1 h2
    exact ⟨⟨n1, p1, by rw [hm]; exact hle.trans h3⟩, hm⟩

theorem runOps_wf : ∀ (ops : List CacheOp) (fc : FileCache), CacheWF fc →
    CacheWF (runOps fc ops) ∧ (runOps fc ops).maxSize = fc.maxSize := by
  intro ops
  induction ops with
  | nil => intro fc h; exact ⟨h, rfl⟩
  | cons op ops ih =>
    intro fc h
    obtain ⟨hwf1, hmax1⟩ := applyOp_wf fc op h
    obtain ⟨hwf2, hmax2⟩ := ih (applyOp fc op) hwf1
    exact ⟨hwf2, hmax2.trans hmax1⟩

/-- C2.  On a cache constructed with capacity `n ≥ 1`, after any sequence of
`Get`/`Put`/`Clear`/`CleanExpired` operations the representation invariant
holds: the map has at most one entry per key, the key set of the map and the
member set of the recency list coincide, and the entry count — hence
`Size()` after any sequence of `Put`s — never exceeds `n`. -/
theorem claim_C2 (n ttl : Nat) (ops : List CacheOp) (_hn : 1 ≤ n) :
    (keysOf (runOps (NewFileCache n ttl) ops)).Nodup ∧
    (∀ k, k ∈ keysOf (runOps (NewFileCache n ttl) ops) ↔
      k ∈ (runOps (NewFileCache n ttl) ops).lruList) ∧
    (runOps (NewFileCache n ttl) ops).Size ≤ n := by
  have h0 : CacheWF (NewFileCache n ttl) := by
    refine ⟨List.nodup_nil, List.Perm.refl _, ?_⟩
    show ([] : List (String × CacheEntry)).length ≤ n
    simp
  obtain ⟨⟨hn1, hp, hlen⟩, hmax⟩ := runOps_wf ops (NewFileCache n ttl) h0
  refine ⟨hn1, fun k => (hp.mem_iff).symm, ?_⟩
  show (runOps (NewFileCache n ttl) ops).cache.length ≤ n
  have : (NewFileCache n ttl).maxSize = n := rfl
  rw [hmax, this] at hlen
  exact hlen

theorem claim_C2_witness :
    1 ≤ 2 ∧
    (runOps (NewFileCache 2 5)
      [.put "A" 1 0, .put "B" 2 0, .put "C" 3 1, .get "A" 1]).Size ≤ 2 :=
  ⟨by decide,
   (claim_C2 2 5 [.put "A" 1 0, .put "B" 2 0, .put "C" 3 1, .get "A" 1]
     (by decide)).2.2⟩

/-!
The data-type histogram partitions the non-blank cells (claim C10).
-/

theorem classify_mem_dtTags (cell : String) (h : trimSpace cell ≠ "") :
    classifyDataType cell ∈ dtTags := by
  simp only [classifyDataType]
  split_ifs with h1 h2 h3 h4 h5
  · exact absurd h1 h
  all_goals simp [dtTags]

theorem sumCounts_bump (m : List (String × Nat)) (k : String) :
    sumCounts (bumpCount m k) = sumCounts m + 1 := by
  induction m with
  | nil => simp [bumpCount, sumCounts]
  | cons p rest ih =>
    obtain ⟨k', v⟩ := p
    by_cases heq : k' = k
    · simp [bumpCount, heq, sumCounts]
      omega
    · simp only [bumpCount, if_neg heq, sumCounts, List.map_cons, List.sum_cons]
      simp only [sumCounts] at ih
      omega

theorem mem_bump {m : List (String × Nat)} {k : String} {q : String × Nat}
    (h : q ∈ bumpCount m k) : q.1 = k ∨ ∃ q2 ∈ m, q2.1 = q.1 := by
  induction m with
  | nil =>
    have he : q = (k, 1) := by simpa [bumpCount] using h
    left
    rw [he]
  | cons p rest ih =>
    obtain ⟨k', v⟩ := p
    by_cases heq : k' = k
    · simp only [bumpCount, if_pos heq, List.mem_cons] at h
      rcases h with rfl | h
      · left; exact heq
      · right; exact ⟨q, List.mem_cons_of_mem _ h, rfl⟩
    · simp only [bumpCount, if_neg heq, List.mem_cons] at h
      rcases h with rfl | h
      · right; exact ⟨(k', v), List.mem_cons_self _ _, rfl⟩
      · rcases ih h with hk | ⟨q2, hq2, he⟩
        · left; exact hk
        · right; exact ⟨q2, List.mem_cons_of_mem _ hq2, he⟩

theorem processCell_dataTypes (rowIdx : Nat) (st : CellScan) (p : Nat × String) :
    ((processCell rowIdx st p).stats.DataTypes = st.stats.DataTypes ∧
     (processCell rowIdx st p).stats.NonEmptyCells = st.stats.NonEmptyCells) ∨
    (trimSpace p.2 ≠ "" ∧
     (processCell rowIdx st p).stats.DataTypes =
       bumpCount st.stats.DataTypes (classifyDataType p.2) ∧
     (processCell rowIdx st p).stats.NonEmptyCells =
       st.stats.NonEmptyCells + 1) := by
  by_cases hc : trimSpace p.2 ≠ ""
  · right
    refine ⟨hc, ?_, ?_⟩ <;>
      (unfold processCell
       rw [if_pos hc]
       by_cases hf : st.firstDataRowFound <;> simp [hf])
  · left
    unfold processCell
    rw [if_neg hc]
    exact ⟨rfl, rfl⟩

theorem cellFold_inv (rowIdx : Nat) :
    ∀ (l : List (Nat × String)) (st : CellScan),
    sumCounts st.stats.DataTypes = st.stats.NonEmptyCells →
    (∀ q ∈ st.stats.DataTypes, q.1 ∈ dtTags) →
    (sumCounts (l.foldl (processCell rowIdx) st).stats.DataTypes =
      (l.foldl (processCell rowIdx) st).stats.NonEmptyCells ∧
     ∀ q ∈ (l.foldl (processCell rowIdx) st).stats.DataTypes, q.1 ∈ dtTags) := by
  intro l
  induction l with
  | nil => intro st h1 h2; exact ⟨h1, h2⟩
  | cons p l ih =>
    intro st h1 h2
    rw [List.foldl_cons]
    rcases processCell_dataTypes rowIdx st p with ⟨hd, hn⟩ | ⟨hc, hd, hn⟩
    · exact ih _ (by rw [hd, hn]; exact h1) (by rw [hd]; exact h2)
    · refine ih _ ?_ ?_
      · rw [hd, hn, sumCounts_bump, h1]
      · rw [hd]
        intro q hq
        rcases mem_bump hq with hk | ⟨q2, hq2, he⟩
        · rw [hk]
          exact classify_mem_dtTags p.2 hc
        · rw [← he]
          exact h2 q2 hq2

theorem processRow_inv (st : RowScan) (p : Nat × List String)
    (h1 : sumCounts st.stats.DataTypes = st.stats.NonEmptyCells)
    (h2 : ∀ q ∈ st.stats.DataTypes, q.1 ∈ dtTags) :
    sumCounts (processRow st p).stats.DataTypes =
      (processRow st p).stats.NonEmptyCells ∧
    ∀ q ∈ (processRow st p).stats.DataTypes, q.1 ∈ dtTags := by
  have hin := cellFold_inv p.1 p.2.enum
    { stats := st.stats, hasData := false, rowFirstCol := -1, rowLastCol := -1,
      firstDataRowFound := st.firstDataRowFound } h1 h2
  unfold processRow
  dsimp only
  split
  · exact ⟨by simpa using hin.1, by simpa using hin.2⟩
  · exact ⟨hin.1, hin.2⟩

theorem rowFold_inv : ∀ (l : List (Nat × List String)) (st : RowScan),
    sumCounts st.stats.DataTypes = st.stats.NonEmptyCells →
    (∀ q ∈ st.stats.DataTypes, q.1 ∈ dtTags) →
    (sumCounts (l.foldl processRow st).stats.DataTypes =
      (l.foldl processRow st).stats.NonEmptyCells ∧
     ∀ q ∈ (l.foldl processRow st).stats.DataTypes, q.1 ∈ dtTags) := by
  intro l
  induction l with
  | nil => intro st h1 h2; exact ⟨h1, h2⟩
  | cons p l ih =>
    intro st h1 h2
    rw [List.foldl_cons]
    have := processRow_inv st p h1 h2
    exact ih _ this.1 this.2

/-- C10.  The `DataTypes` histogram of `GetSheetStats` partitions exactly
the non-blank cells: every classified cell is counted under exactly one of
the tags `integer`, `number`, `boolean`, `date`, `text` (tried in that
order), `"empty"` never occurs as a key, and the counts sum to
`NonEmptyCells`. -/
theorem claim_C10 (rows : List (List String)) :
    sumCounts (getSheetStats rows).DataTypes = (getSheetStats rows).NonEmptyCells ∧
    ∀ q ∈ (getSheetStats rows).DataTypes, q.1 ∈ dtTags ∧ q.1 ≠ "empty" := by
  have hempty : ("empty" : String) ∉ dtTags := by decide
  suffices h : sumCounts (getSheetStats rows).DataTypes =
      (getSheetStats rows).NonEmptyCells ∧
      ∀ q ∈ (getSheetStats rows).DataTypes, q.1 ∈ dtTags by
    refine ⟨h.1, fun q hq => ⟨h.2 q hq, fun he => hempty (he ▸ h.2 q hq)⟩⟩
  unfold getSheetStats
  by_cases h0 : rows.length = 0
  · rw [if_pos h0]
    exact ⟨rfl, by intro q hq; simp at hq⟩
  · rw [if_neg h0]
    have hfold := rowFold_inv rows.enum
      { stats := { RowCount := rows.length, ColumnCount := 0, NonEmptyRows := 0,
                   NonEmptyCells := 0, DataTypes := [], FirstDataRow := 0,
                   LastDataRow := 0, FirstDataCol := "", LastDataCol := "" },
        maxColumns := 0, firstDataRowFound := false, firstDataCol := 0,
        lastDataCol := 0 } rfl (by intro q hq; simp at hq)
    dsimp only
    split_ifs <;> exact ⟨hfold.1, hfold.2⟩

theorem claim_C10_witness :
    sumCounts (getSheetStats roundTripRows).DataTypes =
      (getSheetStats roundTripRows).NonEmptyCells :=
  (claim_C10 roundTripRows).1

/-!
The bounded header search (claim C8).
-/

theorem colCandidate_zero (fe : XFile) (s : String) (col : Nat) :
    colCandidate fe s col 0 = none := by
  unfold colCandidate coordinatesToCellName
  simp

theorem rowCandidate_zero (fe : XFile) (s : String) (row : Nat) :
    rowCandidate fe s 0 row = none := by
  unfold rowCandidate coordinatesToCellName
  simp

theorem scanColUp_all_none (fe : XFile) (s : String) (col searchEnd : Nat) :
    ∀ r, (∀ i, searchEnd ≤ i → i ≤ r → colCandidate fe s col i = none) →
    scanColUp fe s col searchEnd r = "" := by
  intro r
  induction r with
  | zero => intro _; rfl
  | succ r ih =>
    intro h
    by_cases hlt : r + 1 < searchEnd
    · simp only [scanColUp, if_pos hlt]
    · have hc := h (r + 1) (by omega) (le_refl _)
      simp only [scanColUp, if_neg hlt, hc]
      exact ih (fun i h1 h2 => h i h1 (by omega))

theorem scanColUp_first (fe : XFile) (s : String) (col searchEnd r0 : Nat)
    (v : String) (hc : colCandidate fe s col r0 = some v)
    (hse : searchEnd ≤ r0) :
    ∀ r, r0 ≤ r → (∀ i, r0 < i → i ≤ r → colCandidate fe s col i = none) →
    scanColUp fe s col searchEnd r = v := by
  intro r
  induction r with
  | zero =>
    intro hr0 _
    have h0 : r0 = 0 := Nat.le_zero.mp hr0
    rw [h0, colCandidate_zero] at hc
    cases hc
  | succ r ih =>
    intro hr0 h
    by_cases heq : r0 = r + 1
    · subst heq
      have hlt : ¬ r + 1 < searchEnd := by omega
      simp only [scanColUp, if_neg hlt, hc]
    · have hnone := h (r + 1) (by omega) (le_refl _)
      have hlt : ¬ r + 1 < searchEnd := by omega
      simp only [scanColUp, if_neg hlt, hnone]
      exact ih (by omega) (fun i h1 h2 => h i h1 (by omega))

theorem scanRowLeft_all_none (fe : XFile) (s : String) (row searchEnd : Nat) :
    ∀ c, (∀ i, searchEnd ≤ i → i ≤ c → rowCandidate fe s i row = none) →
    scanRowLeft fe s row searchEnd c = "" := by
  intro c
  induction c with
  | zero => intro _; rfl
  | succ c ih =>
    intro h
    by_cases hlt : c + 1 < searchEnd
    · simp only [scanRowLeft, if_pos hlt]
    · have hc := h (c + 1) (by omega) (le_refl _)
      simp only [scanRowLeft, if_neg hlt, hc]
      exact ih (fun i h1 h2 => h i h1 (by omega))

theorem scanRowLeft_first (fe : XFile) (s : String) (row searchEnd c0 : Nat)
    (v : String) (hc : rowCandidate fe s c0 row = some v)
    (hse : searchEnd ≤ c0) :
    ∀ c, c0 ≤ c → (∀ i, c0 < i → i ≤ c → rowCandidate fe s i row = none) →
    scanRowLeft fe s row searchEnd c = v := by
  intro c
  induction c with
  | zero =>
    intro hc0 _
    have h0 : c0 = 0 := Nat.le_zero.mp hc0
    rw [h0, rowCandidate_zero] at hc
    cases hc
  | succ c ih =>
    intro hc0 h
    by_cases heq : c0 = c + 1
    · subst heq
      have hlt : ¬ c + 1 < searchEnd := by omega
      simp only [scanRowLeft, if_neg hlt, hc]
    · have hnone := h (c + 1) (by omega) (le_refl _)
      have hlt : ¬ c + 1 < searchEnd := by omega
      simp only [scanRowLeft, if_neg hlt, hnone]
      exact ih (by omega) (fun i h1 h2 => h i h1 (by omega))

/-- C8.  Header resolution: the upward column scan inspects exactly the rows
`row-1` down to `max 1 (row - 10)` and returns the first (nearest) cell
whose trimmed text is non-empty and not float-parseable, else `""`; the
leftward row scan is the mirror; `getCellLabel` tries the column scan first
and falls back to the row scan.  In particular, on a sheet whose only
header text sits in the same column, a header 11 rows above the cell is out
of reach (empty label) while a header 9 rows above is found. -/
theorem claim_C8 (fe : XFile) (s : String) (col row : Nat) :
    ((∀ i, max 1 (row - maxHeaderSearchDepth) ≤ i → i < row →
        colCandidate fe s col i = none) →
      findColumnHeader fe s col row = "") ∧
    (∀ r0 v, max 1 (row - maxHeaderSearchDepth) ≤ r0 → r0 < row →
      colCandidate fe s col r0 = some v →
      (∀ i, r0 < i → i < row → colCandidate fe s col i = none) →
      findColumnHeader fe s col row = v) ∧
    ((∀ i, max 1 (col - maxHeaderSearchDepth) ≤ i → i < col →
        rowCandidate fe s i row = none) →
      findRowHeader fe s col row = "") ∧
    (∀ c0 v, max 1 (col - maxHeaderSearchDepth) ≤ c0 → c0 < col →
      rowCandidate fe s c0 row = some v →
      (∀ i, c0 < i → i < col → rowCandidate fe s i row = none) →
      findRowHeader fe s col row = v) ∧
    (∀ cn, cellNameToCoordinates cn = some (col, row) →
      getCellLabel fe s cn =
        (if findColumnHeader fe s col row ≠ "" then findColumnHeader fe s col row
         else findRowHeader fe s col row)) ∧
    getCellLabel (headerSheet 1) s "A12" = "" ∧
    getCellLabel (headerSheet 1) s "A10" = "Revenue" := by
  refine ⟨?_, ?_, ?_, ?_, ?_, rfl, rfl⟩
  · intro hyp
    apply scanColUp_all_none
    intro i h1 h2
    apply hyp i h1
    have h3 : 1 ≤ i := le_trans (le_max_left _ _) h1
    omega
  · intro r0 v h1 h2 hc hnone
    apply scanColUp_first fe s col _ r0 v hc h1
    · omega
    · intro i hi1 hi2
      apply hnone i hi1
      have h3 : 1 ≤ r0 := le_trans (le_max_left _ _) h1
      omega
  · intro hyp
    apply scanRowLeft_all_none
    intro i h1 h2
    apply hyp i h1
    have h3 : 1 ≤ i := le_trans (le_max_left _ _) h1
    omega
  · intro c0 v h1 h2 hc hnone
    apply scanRowLeft_first fe s row _ c0 v hc h1
    · omega
    · intro i hi1 hi2
      apply hnone i hi1
      have h3 : 1 ≤ c0 := le_trans (le_max_left _ _) h1
      omega
  · intro cn hcn
    simp only [getCellLabel, hcn]

theorem claim_C8_witness :
    findColumnHeader (headerSheet 1) "S" 1 3 = "Revenue" :=
  (claim_C8 (headerSheet 1) "S" 1 3).2.1 1 "Revenue" (by decide) (by decide)
    (by decide) (fun i h1 h2 => by interval_cases i; decide)

/-!
Range extraction (claim C5).
-/

theorem c5_degenerate {fe : XFile} {sheetName rangeRef msg : String}
    (hE : ExtractFormulasFromRange fe sheetName rangeRef = .error msg)
    (hP : parseRangeRef rangeRef = none) :
    ((ExtractFormulasFromRange fe sheetName rangeRef).isOk = true ↔
      (parseRangeRef rangeRef).isSome = true) ∧
    (∀ sc sr ec er, parseRangeRef rangeRef = some (sc, sr, ec, er) →
      ∀ fi, fi ∈ okList (ExtractFormulasFromRange fe sheetName rangeRef) ↔
        ∃ row col, sr ≤ row ∧ row ≤ er ∧ sc ≤ col ∧ col ≤ ec ∧
          rangeCellRecord fe sheetName row col = some fi) ∧
    (∀ sc sr ec er, parseRangeRef rangeRef = some (sc, sr, ec, er) →
      (ec < sc ∨ er < sr) →
      ExtractFormulasFromRange fe sheetName rangeRef = .ok []) := by
  refine ⟨?_, ?_, ?_⟩
  · rw [hE, hP]
    simp [Except.isOk, Except.toBool]
  · intro sc sr ec er hp
    rw [hP] at hp
    cases hp
  · intro sc sr ec er hp
    rw [hP] at hp
    cases hp

/-- C5, amended.  `ExtractFormulasFromRange` fails exactly when the range
string does not split on `:` into two components that both parse as cell
coordinates; the relative order of the two corners is never validated.  For
every successfully parsed range, the result is the list of one record per
formula-bearing cell of the rectangle (row-major), which in particular is
`ok []` — not an error — when the first corner does not precede the second. -/
theorem claim_C5_amended (fe : XFile) (sheetName rangeRef : String) :
    ((ExtractFormulasFromRange fe sheetName rangeRef).isOk = true ↔
      (parseRangeRef rangeRef).isSome = true) ∧
    (∀ sc sr ec er, parseRangeRef rangeRef = some (sc, sr, ec, er) →
      ∀ fi, fi ∈ okList (ExtractFormulasFromRange fe sheetName rangeRef) ↔
        ∃ row col, sr ≤ row ∧ row ≤ er ∧ sc ≤ col ∧ col ≤ ec ∧
          rangeCellRecord fe sheetName row col = some fi) ∧
    (∀ sc sr ec er, parseRangeRef rangeRef = some (sc, sr, ec, er) →
      (ec < sc ∨ er < sr) →
      ExtractFormulasFromRange fe sheetName rangeRef = .ok []) := by
  rcases hsp : goSplit rangeRef ':' with _ | ⟨a, _ | ⟨b, _ | ⟨c, rest⟩⟩⟩
  · exact @c5_degenerate fe sheetName rangeRef
      "invalid range format, expected A1:C3"
      (by simp only [ExtractFormulasFromRange, hsp])
      (by simp only [parseRangeRef, hsp])
  · exact @c5_degenerate fe sheetName rangeRef
      "invalid range format, expected A1:C3"
      (by simp only [ExtractFormulasFromRange, hsp])
      (by simp only [parseRangeRef, hsp])
  · rcases hca : cellNameToCoordinates a with _ | ⟨sc0, sr0⟩
    · exact @c5_degenerate fe sheetName rangeRef "invalid start cell"
        (by simp only [ExtractFormulasFromRange, hsp, hca])
        (by simp only [parseRangeRef, hsp, hca])
    · rcases hcb : cellNameToCoordinates b with _ | ⟨ec0, er0⟩
      · exact @c5_degenerate fe sheetName rangeRef "invalid end cell"
          (by simp only [ExtractFormulasFromRange, hsp, hca, hcb])
          (by simp only [parseRangeRef, hsp, hca, hcb])
      · have hE : ExtractFormulasFromRange fe sheetName rangeRef =
            .ok ((List.range' sr0 (er0 + 1 - sr0)).flatMap fun row =>
              (List.range' sc0 (ec0 + 1 - sc0)).filterMap fun col =>
                rangeCellRecord fe sheetName row col) := by
          simp only [ExtractFormulasFromRange, hsp, hca, hcb]
        have hP : parseRangeRef rangeRef = some (sc0, sr0, ec0, er0) := by
          simp only [parseRangeRef, hsp, hca, hcb]
        refine ⟨?_, ?_, ?_⟩
        · rw [hE, hP]
          simp [Except.isOk, Except.toBool]
        · intro sc sr ec er hp fi
          rw [hP] at hp
          have hq := Option.some.inj hp
          simp only [Prod.mk.injEq] at hq
          obtain ⟨rfl, rfl, rfl, rfl⟩ := hq
          rw [hE]
          simp only [okList]
          rw [List.mem_flatMap]
          constructor
          · rintro ⟨row, hrow, hmem⟩
            rw [List.mem_range'_1] at hrow
            rw [List.mem_filterMap] at hmem
            obtain ⟨col, hcol, hrec⟩ := hmem
            rw [List.mem_range'_1] at hcol
            exact ⟨row, col, by omega, by omega, by omega, by omega, hrec⟩
          · rintro ⟨row, col, h1, h2, h3, h4, hrec⟩
            refine ⟨row, ?_, ?_⟩
            · rw [List.mem_range'_1]
              omega
            · rw [List.mem_filterMap]
              exact ⟨col, by rw [List.mem_range'_1]; omega, hrec⟩
        · intro sc sr ec er hp hrev
          rw [hP] at hp
          have hq := Option.some.inj hp
          simp only [Prod.mk.injEq] at hq
          obtain ⟨rfl, rfl, rfl, rfl⟩ := hq
          have hnil : ((List.range' sr0 (er0 + 1 - sr0)).flatMap fun row =>
              (List.range' sc0 (ec0 + 1 - sc0)).filterMap fun col =>
                rangeCellRecord fe sheetName row col) = [] := by
            rw [List.eq_nil_iff_forall_not_mem]
            intro fi hfi
            rw [List.mem_flatMap] at hfi
            obtain ⟨row, hrow, hmem⟩ := hfi
            rw [List.mem_range'_1] at hrow
            rw [List.mem_filterMap] at hmem
            obtain ⟨col, hcol, _⟩ := hmem
            rw [List.mem_range'_1] at hcol
            omega
          rw [hE, hnil]
  · exact @c5_degenerate fe sheetName rangeRef
      "invalid range format, expected A1:C3"
      (by simp only [ExtractFormulasFromRange, hsp])
      (by simp only [parseRangeRef, hsp])

theorem claim_C5_witness :
    ExtractFormulasFromRange sampleFile "Sheet1" "B2:A1" =
      .ok ([] : List FormulaInfo) :=
  (claim_C5_amended sampleFile "Sheet1" "B2:A1").2.2 2 2 1 1 (by decide)
    (by decide)

end MyMcp
